import Mathlib

/-!
Verification of the `flow` realtime log viewer against its specification.

The definitions below are a shallow embedding of the Rust sources:
* `src/ui/ansi_converter.rs` — the ANSI-escape-to-ncurses conversion engine
  (`strip_ansi`, `break_to_ncurses_components`, `CursesStyle::print`,
  `build_color_id`, `init_ansi_colors`);
* `src/core/flow.rs` — `Flow::scroll` and `Flow::append_incoming_lines`.

Machine integers (`i16`, `i32`) are modelled as `Int`; the single `as usize`
cast in `Flow::scroll` is modelled with an explicit `% 2 ^ 64`.  The regex
iteration of the Rust `regex` 0.1 crate (leftmost-first alternation,
successive non-overlapping matches, an empty match abutting the end of the
previous match being skipped) is modelled by fuel-based recursive scanners so
that every definition is kernel-executable.
-/

/-- The ESC byte `0x1b` that starts every ANSI escape sequence. -/
def escChar : Char := Char.ofNat 27

/-- ncurses `COLOR_BLACK`. -/
def COLOR_BLACK : Int := 0

/-- ncurses `COLOR_RED`. -/
def COLOR_RED : Int := 1

/-- ncurses `COLOR_GREEN`. -/
def COLOR_GREEN : Int := 2

/-- ncurses `COLOR_YELLOW`. -/
def COLOR_YELLOW : Int := 3

/-- ncurses `COLOR_BLUE`. -/
def COLOR_BLUE : Int := 4

/-- ncurses `COLOR_MAGENTA`. -/
def COLOR_MAGENTA : Int := 5

/-- ncurses `COLOR_CYAN`. -/
def COLOR_CYAN : Int := 6

/-- ncurses `COLOR_WHITE`. -/
def COLOR_WHITE : Int := 7

/-- `ansi_converter.rs` line 10: the sentinel for the terminal default color;
negative, and distinct in absolute value from the 8 named colors. -/
def COLOR_DEFAULT : Int := -9

/-- The five ncurses attribute functions used by the mapping
(`A_BOLD`, `A_STANDOUT`, `A_UNDERLINE`, `A_REVERSE`, `A_DIM`);
the Rust code stores them as `fn() -> u64` pointers. -/
inductive CursesAttr
  | A_BOLD
  | A_STANDOUT
  | A_UNDERLINE
  | A_REVERSE
  | A_DIM
deriving DecidableEq, Repr

/-- `ansi_converter.rs` lines 147-152: the `CursesStyle` enum. -/
inductive CursesStyle
  | Attribute (prop : CursesAttr) (active : Bool)
  | Color (foreground background : Option Int)
  | Reset
deriving DecidableEq, Repr

/-- `ansi_converter.rs` lines 188-192: the `CursesComponent` enum. -/
inductive CursesComponent
  | Style (style : CursesStyle)
  | Content (text : String)
deriving DecidableEq, Repr

/-- `ansi_converter.rs` lines 37-76: the `ANSI_TO_NCURSES_MAPPING` table.
The keys in the Rust source contain a literal ESC byte before the bracket. -/
def ANSI_TO_NCURSES_MAPPING : List (String × CursesStyle) :=
  [("\x1b[0m", CursesStyle.Reset),
   ("\x1b[1m", CursesStyle.Attribute CursesAttr.A_BOLD true),
   ("\x1b[3m", CursesStyle.Attribute CursesAttr.A_STANDOUT true),
   ("\x1b[4m", CursesStyle.Attribute CursesAttr.A_UNDERLINE true),
   ("\x1b[7m", CursesStyle.Attribute CursesAttr.A_REVERSE true),
   ("\x1b[9m", CursesStyle.Attribute CursesAttr.A_DIM true),
   ("\x1b[22m", CursesStyle.Attribute CursesAttr.A_BOLD false),
   ("\x1b[23m", CursesStyle.Attribute CursesAttr.A_STANDOUT false),
   ("\x1b[24m", CursesStyle.Attribute CursesAttr.A_UNDERLINE false),
   ("\x1b[27m", CursesStyle.Attribute CursesAttr.A_REVERSE false),
   ("\x1b[29m", CursesStyle.Attribute CursesAttr.A_DIM false),
   ("\x1b[30m", CursesStyle.Color (some COLOR_BLACK) none),
   ("\x1b[31m", CursesStyle.Color (some COLOR_RED) none),
   ("\x1b[32m", CursesStyle.Color (some COLOR_GREEN) none),
   ("\x1b[33m", CursesStyle.Color (some COLOR_YELLOW) none),
   ("\x1b[34m", CursesStyle.Color (some COLOR_BLUE) none),
   ("\x1b[35m", CursesStyle.Color (some COLOR_MAGENTA) none),
   ("\x1b[36m", CursesStyle.Color (some COLOR_CYAN) none),
   ("\x1b[37m", CursesStyle.Color (some COLOR_WHITE) none),
   ("\x1b[39m", CursesStyle.Color (some COLOR_DEFAULT) none),
   ("\x1b[40m", CursesStyle.Color none (some COLOR_BLACK)),
   ("\x1b[41m", CursesStyle.Color none (some COLOR_RED)),
   ("\x1b[42m", CursesStyle.Color none (some COLOR_GREEN)),
   ("\x1b[43m", CursesStyle.Color none (some COLOR_YELLOW)),
   ("\x1b[44m", CursesStyle.Color none (some COLOR_BLUE)),
   ("\x1b[45m", CursesStyle.Color none (some COLOR_MAGENTA)),
   ("\x1b[46m", CursesStyle.Color none (some COLOR_CYAN)),
   ("\x1b[47m", CursesStyle.Color none (some COLOR_WHITE)),
   ("\x1b[49m", CursesStyle.Color none (some COLOR_DEFAULT))]

/-- `ansi_converter.rs` lines 33-35: `build_color_id`, on `i16` values
(no overflow is possible on the 9-value color domain). -/
def build_color_id (foreground_color background_color : Int) : Int :=
  100 + |foreground_color| * 10 + |background_color|

/-- `ansi_converter.rs` lines 13-23: the `colors` array of `init_ansi_colors`. -/
def colors : List Int :=
  [COLOR_BLACK, COLOR_RED, COLOR_GREEN, COLOR_YELLOW, COLOR_BLUE,
   COLOR_MAGENTA, COLOR_CYAN, COLOR_WHITE, COLOR_DEFAULT]

/-- `ansi_converter.rs` lines 12-31: `init_ansi_colors` registers, for every
pair of colors in the nested loops, the pair id together with the two colors
(each `init_pair(id, fg, bg)` call is recorded as a triple). -/
def init_ansi_colors : List (Int × Int × Int) :=
  colors.flatMap (fun foreground_color =>
    colors.map (fun background_color =>
      (build_color_id foreground_color background_color,
       foreground_color, background_color)))

/-- The persistent `ACTIVE_VALUES` state of `ansi_converter.rs` line 78:
a triple of the stack of active attributes and the active
foreground/background colors. -/
structure ActiveValues where
  attributes : List CursesAttr
  foreground : Int
  background : Int
deriving DecidableEq, Repr

/-- `ansi_converter.rs` line 78: the initial `ACTIVE_VALUES`
`(vec![], COLOR_DEFAULT, COLOR_DEFAULT)`. -/
def ACTIVE_VALUES_initial : ActiveValues :=
  { attributes := [], foreground := COLOR_DEFAULT, background := COLOR_DEFAULT }

/-- The ncurses window operations issued by `CursesStyle::print`
(`wattron`/`wattroff` on an attribute, `wattron(COLOR_PAIR(id))`). -/
inductive WindowOp
  | AttrOn (attr : CursesAttr)
  | AttrOff (attr : CursesAttr)
  | ColorPairOn (id : Int)
deriving DecidableEq, Repr

/-- `ansi_converter.rs` lines 154-186: `CursesStyle::print`.  It mutates the
`ACTIVE_VALUES` state and issues window operations; both effects are returned.
Note that the `Reset` branch drains the attribute stack and turns on the
default-default color pair but leaves the stored foreground/background
fields untouched. -/
def CursesStyle.print : CursesStyle → ActiveValues → ActiveValues × List WindowOp
  | CursesStyle.Attribute prop active, av =>
    if active then
      ({ av with attributes := av.attributes ++ [prop] }, [WindowOp.AttrOn prop])
    else
      (av, [WindowOp.AttrOff prop])
  | CursesStyle.Color foreground background, av =>
    let current_foreground := foreground.getD av.foreground
    let current_background := background.getD av.background
    ({ av with foreground := current_foreground, background := current_background },
     [WindowOp.ColorPairOn (build_color_id current_foreground current_background)])
  | CursesStyle.Reset, av =>
    ({ av with attributes := [] },
     av.attributes.map WindowOp.AttrOff ++
       [WindowOp.ColorPairOn (build_color_id COLOR_DEFAULT COLOR_DEFAULT)])

/-- Matching of the style-token regex `\x1b\[\d+m` at the head of the input:
returns the matched token and the remaining characters, or `none` when the
input does not start with a complete token. -/
def matchStyleToken : List Char → Option (List Char × List Char)
  | c1 :: c2 :: rest =>
    if c1 = escChar ∧ c2 = '[' then
      let ds := rest.takeWhile Char.isDigit
      match rest.dropWhile Char.isDigit with
      | 'm' :: tail =>
        if ds.isEmpty then none else some (c1 :: c2 :: (ds ++ ['m']), tail)
      | _ => none
    else none
  | _ => none

/-- Fuel-based scanner for `strip_ansi` (`ansi_converter.rs` lines 95-100):
`replace_all` with the pattern `(\x1b\[\d+m)` and an empty replacement
removes each successive leftmost token and keeps every other character. -/
def stripAnsiCharsF : Nat → List Char → List Char
  | 0, _ => []
  | fuel + 1, cs =>
    match matchStyleToken cs with
    | some (_, rest) => stripAnsiCharsF fuel rest
    | none =>
      match cs with
      | [] => []
      | c :: cs' => c :: stripAnsiCharsF fuel cs'

/-- Character-level `strip_ansi`; the fuel `cs.length + 1` always suffices
because every step consumes at least one character. -/
def stripAnsiChars (cs : List Char) : List Char :=
  stripAnsiCharsF (cs.length + 1) cs

/-- `ansi_converter.rs` lines 95-100: `str::strip_ansi`. -/
def strip_ansi (s : String) : String :=
  String.mk (stripAnsiChars s.toList)

/-- The Boolean predicate `[^\x1b]` of the second regex branch. -/
def notEsc (c : Char) : Bool := c != escChar

/-- The components pushed for a matched style token
(`ansi_converter.rs` lines 110-115): a `Style` when the token is a key of
`ANSI_TO_NCURSES_MAPPING`, nothing otherwise. -/
def styleComps (tok : List Char) : List CursesComponent :=
  match ANSI_TO_NCURSES_MAPPING.lookup (String.mk tok) with
  | some style => [CursesComponent.Style style]
  | none => []

/-- Fuel-based scanner for `break_to_ncurses_components`
(`ansi_converter.rs` lines 102-124), modelling `captures_iter` with the
pattern `(\x1b\[\d+m)|([^\x1b]*)`:
* a style token is matched by the first branch (leftmost-first alternation);
* otherwise the second branch matches the maximal (possibly empty) run of
  non-ESC characters and pushes it as a `Content` component;
* an empty match is skipped when it ends exactly where the previous match
  ended (`justEnded`), and the iterator then advances one character. -/
def breakScanF : Nat → List Char → Bool → List CursesComponent
  | 0, _, _ => []
  | fuel + 1, cs, justEnded =>
    match matchStyleToken cs with
    | some (tok, rest) => styleComps tok ++ breakScanF fuel rest true
    | none =>
      match cs with
      | [] => if justEnded then [] else [CursesComponent.Content ""]
      | c :: cs' =>
        if c = escChar then
          (if justEnded then [] else [CursesComponent.Content ""]) ++
            breakScanF fuel cs' false
        else
          CursesComponent.Content (String.mk ((c :: cs').takeWhile notEsc)) ::
            breakScanF fuel ((c :: cs').dropWhile notEsc) true

/-- Character-level component scanner with sufficient fuel. -/
def breakScan (cs : List Char) (justEnded : Bool) : List CursesComponent :=
  breakScanF (cs.length + 1) cs justEnded

/-- `ansi_converter.rs` lines 102-124: `str::break_to_ncurses_components`.
The iteration starts with no previous match. -/
def break_to_ncurses_components (s : String) : List CursesComponent :=
  breakScan s.toList false

/-- The characters of all `Content` components, in order. -/
def contentChars : List CursesComponent → List Char
  | [] => []
  | CursesComponent.Content s :: rest => s.toList ++ contentChars rest
  | CursesComponent.Style _ :: rest => contentChars rest

/-- Concatenation of the text of all `Content` components. -/
def concatContents (comps : List CursesComponent) : String :=
  String.mk (contentChars comps)

/-- Removal of every ESC byte from a string. -/
def removeEsc (s : String) : String :=
  String.mk (s.toList.filter notEsc)

/-- `ui/event.rs` (outside `src/`): the `Offset` enum, as used by
`Flow::scroll` in `src/core/flow.rs` lines 79-99. -/
inductive Offset
  | Line (value : Int)
  | Viewport (value : Int)
  | Top
  | Bottom
deriving DecidableEq, Repr

/-- Modelled from the spec: `frame.plane` of the rendering backend exposes
the viewport height and the current virtual height (glossary: the total
number of lines the active Buffer's filtered view produces); both are `i32`
in the backend. -/
structure Plane where
  height : Int
  virtual_height : Int
deriving DecidableEq, Repr

/-- Modelled from the spec (section 4.1): `LineCollection`, the bounded
store of raw lines with capacity `max_lines_count`. -/
structure LineCollection where
  max_lines_count : Nat
  entries : List String
deriving DecidableEq, Repr

/-- Modelled from the spec (section 4.1): `extend` appends all given lines
in order. -/
def LineCollection.extend (lc : LineCollection) (new_lines : List String) :
    LineCollection :=
  { lc with entries := lc.entries ++ new_lines }

/-- Modelled from the spec (section 4.1): `clear_excess` trims from the
front until the length is at most the capacity. -/
def LineCollection.clear_excess (lc : LineCollection) : LineCollection :=
  { lc with entries := lc.entries.drop (lc.entries.length - lc.max_lines_count) }

/-- Decides whether the pattern occurs at the head of the text. -/
def startsWithSeq : List Char → List Char → Bool
  | [], _ => true
  | _ :: _, [] => false
  | p :: ps, c :: cs => p == c && startsWithSeq ps cs

/-- Decides whether the pattern occurs anywhere in the text. -/
def containsSeq : List Char → List Char → Bool
  | p, [] => p.isEmpty
  | p, c :: cs => startsWithSeq p (c :: cs) || containsSeq p cs

/-- Modelled from the spec (section 4.2): a line matches a filter by a
content match on the filter's pattern; a pattern of `None` or the empty
string matches everything. -/
def line_matches (pattern : Option String) (line : String) : Bool :=
  match pattern with
  | none => true
  | some p => p.toList.isEmpty || containsSeq p.toList line.toList

/-- Modelled from the spec (section 3): a `Buffer` holds its immutable
filter pattern and its scroll offset from the bottom, `reverse_index`. -/
structure Buffer where
  filter : Option String
  reverse_index : Nat
deriving DecidableEq, Repr

/-- Modelled from the spec (section 4.2): `Buffer.parse` applies the filter
to every line of the collection, in arrival order, producing only the
matching lines; the length of the result is the virtual height. -/
def Buffer.parse (b : Buffer) (lines : List String) : List String :=
  lines.filter (line_matches b.filter)

/-- Modelled from the spec (section 4.2): `is_scrolled()` holds exactly when
`reverse_index != 0`. -/
def Buffer.is_scrolled (b : Buffer) : Bool :=
  b.reverse_index != 0

/-- Modelled from the spec (section 4.2): `adjust_reverse_index(delta,
max_value)` clamps `reverse_index + delta` into `[0, max_value]`. -/
def Buffer.adjust_reverse_index (b : Buffer) (value max_value : Int) : Buffer :=
  { b with reverse_index := (max 0 (min ((b.reverse_index : Int) + value) max_value)).toNat }

/-- Modelled from the spec (section 4.2): `reset_reverse_index()` sets the
offset to 0 (pinned to the tail). -/
def Buffer.reset_reverse_index (b : Buffer) : Buffer :=
  { b with reverse_index := 0 }

/-- The Rust `as usize` cast applied to an `i32` value: sign extension to 64
bits, read back as an unsigned machine word. -/
def usize_of_int (x : Int) : Nat :=
  (x % (2 ^ 64)).toNat

/-- The state of `Flow` (`src/core/flow.rs` lines 14-18) relevant to the
scroll and ingestion claims: the frame's plane, the line store and the
currently selected buffer (tab switching is not involved in any claim, so
only the selected buffer is carried). -/
structure FlowState where
  plane : Plane
  lines : LineCollection
  buffer : Buffer
deriving DecidableEq, Repr

/-- `src/core/flow.rs` lines 79-99: `Flow::scroll`.  `max_value` is
`virtual_height - height` on `i32`; the `Offset::Top` branch stores
`max_value as usize` into `reverse_index`; the trailing `frame.scroll` call
is pure rendering and carries no model state. -/
def FlowState.scroll (st : FlowState) (offset : Offset) : FlowState :=
  let max_value := st.plane.virtual_height - st.plane.height
  let b :=
    match offset with
    | Offset.Line value => st.buffer.adjust_reverse_index value max_value
    | Offset.Viewport value =>
        st.buffer.adjust_reverse_index (value * st.plane.height - 4) max_value
    | Offset.Top => { st.buffer with reverse_index := usize_of_int max_value }
    | Offset.Bottom => st.buffer.reset_reverse_index
  { st with buffer := b }

/-- `src/core/flow.rs` lines 141-145: `Flow::reset_view` re-parses the
selected buffer's view and prints it; modelled from the spec, its effect on
the model state is that the plane's virtual height becomes the number of
lines the filtered view now produces. -/
def FlowState.reset_view (st : FlowState) : FlowState :=
  { st with plane :=
      { st.plane with
          virtual_height := ((st.buffer.parse st.lines.entries).length : Int) } }

/-- `src/core/flow.rs` lines 127-139: `Flow::append_incoming_lines`: record
the initial virtual height, extend the line store, re-render, and — only if
the current buffer is scrolled — scroll by the change in virtual height;
finally trim the store to capacity. -/
def FlowState.append_incoming_lines (st : FlowState) (pending_lines : List String) :
    FlowState :=
  let initial_height := st.plane.virtual_height
  let st1 := { st with lines := st.lines.extend pending_lines }
  let st2 := st1.reset_view
  let st3 :=
    if st2.buffer.is_scrolled then
      st2.scroll (Offset.Line (st2.plane.virtual_height - initial_height))
    else st2
  { st3 with lines := st3.lines.clear_excess }

theorem length_dropWhile_le (p : Char → Bool) (l : List Char) :
    (l.dropWhile p).length ≤ l.length := by
  have h := congrArg List.length (List.takeWhile_append_dropWhile (p := p) (l := l))
  simp only [List.length_append] at h
  omega

theorem matchStyleToken_rest_length {cs tok rest : List Char}
    (h : matchStyleToken cs = some (tok, rest)) : rest.length < cs.length := by
  match cs with
  | [] => simp [matchStyleToken] at h
  | [c] => simp [matchStyleToken] at h
  | c1 :: c2 :: rest0 =>
    simp only [matchStyleToken] at h
    split at h
    · split at h
      next heq =>
        split at h
        · exact absurd h (by simp)
        · have hlen := congrArg List.length heq
          have hle := length_dropWhile_le Char.isDigit rest0
          rw [hlen] at hle
          obtain ⟨_, hrest⟩ := Prod.mk.injEq .. ▸ Option.some.injEq .. ▸ h
          simp only [List.length_cons] at hle
          simp [← hrest, List.length_cons]
          omega
      next => exact absurd h (by simp)
    · exact absurd h (by simp)

theorem matchStyleToken_cons_none {c : Char} (cs : List Char)
    (hc : c ≠ escChar) : matchStyleToken (c :: cs) = none := by
  match cs with
  | [] => rfl
  | c2 :: rest => simp [matchStyleToken, hc]


theorem stripAnsiCharsF_fuel :
    ∀ (f1 f2 : Nat) (cs : List Char), cs.length < f1 → cs.length < f2 →
      stripAnsiCharsF f1 cs = stripAnsiCharsF f2 cs := by
  intro f1
  induction f1 with
  | zero => intro f2 cs h1 _; omega
  | succ f1' ih =>
    intro f2 cs h1 h2
    match f2, h2 with
    | f2' + 1, h2 =>
      cases hm : matchStyleToken cs with
      | some pr =>
        obtain ⟨tok, rest⟩ := pr
        have hlt := matchStyleToken_rest_length hm
        simp only [stripAnsiCharsF, hm]
        exact ih f2' rest (by omega) (by omega)
      | none =>
        cases cs with
        | nil => rfl
        | cons c cs' =>
          simp only [List.length_cons] at h1 h2
          simp only [stripAnsiCharsF, hm]
          rw [ih f2' cs' (by omega) (by omega)]

theorem breakScanF_fuel :
    ∀ (f1 f2 : Nat) (cs : List Char) (b : Bool), cs.length < f1 → cs.length < f2 →
      breakScanF f1 cs b = breakScanF f2 cs b := by
  intro f1
  induction f1 with
  | zero => intro f2 cs b h1 _; omega
  | succ f1' ih =>
    intro f2 cs b h1 h2
    match f2, h2 with
    | f2' + 1, h2 =>
      cases hm : matchStyleToken cs with
      | some pr =>
        obtain ⟨tok, rest⟩ := pr
        have hlt := matchStyleToken_rest_length hm
        simp only [breakScanF, hm]
        rw [ih f2' rest true (by omega) (by omega)]
      | none =>
        cases cs with
        | nil => rfl
        | cons c cs' =>
          simp only [List.length_cons] at h1 h2
          by_cases hc : c = escChar
          · simp only [breakScanF, hm, if_pos hc]
            rw [ih f2' cs' false (by omega) (by omega)]
          · have hnc : notEsc c = true := by simp [notEsc, hc]
            have hdc : ((c :: cs').dropWhile notEsc).length ≤ cs'.length := by
              rw [List.dropWhile_cons, if_pos hnc]
              exact length_dropWhile_le notEsc cs'
            simp only [breakScanF, hm, if_neg hc]
            rw [ih f2' ((c :: cs').dropWhile notEsc) true (by omega) (by omega)]

theorem stripAnsiChars_token {cs tok rest : List Char}
    (h : matchStyleToken cs = some (tok, rest)) :
    stripAnsiChars cs = stripAnsiChars rest := by
  have hlt := matchStyleToken_rest_length h
  unfold stripAnsiChars
  calc stripAnsiCharsF (cs.length + 1) cs
      = stripAnsiCharsF cs.length rest := by simp only [stripAnsiCharsF, h]
    _ = stripAnsiCharsF (rest.length + 1) rest :=
        stripAnsiCharsF_fuel cs.length (rest.length + 1) rest (by omega) (by omega)

theorem stripAnsiChars_cons_noToken {c : Char} {cs : List Char}
    (h : matchStyleToken (c :: cs) = none) :
    stripAnsiChars (c :: cs) = c :: stripAnsiChars cs := by
  unfold stripAnsiChars
  simp only [List.length_cons, stripAnsiCharsF, h]

theorem breakScan_nil (b : Bool) :
    breakScan [] b = if b then [] else [CursesComponent.Content ""] := by
  cases b <;> rfl

theorem breakScan_token {cs tok rest : List Char}
    (h : matchStyleToken cs = some (tok, rest)) (b : Bool) :
    breakScan cs b = styleComps tok ++ breakScan rest true := by
  have hlt := matchStyleToken_rest_length h
  unfold breakScan
  calc breakScanF (cs.length + 1) cs b
      = styleComps tok ++ breakScanF cs.length rest true := by
        simp only [breakScanF, h]
    _ = styleComps tok ++ breakScanF (rest.length + 1) rest true := by
        rw [breakScanF_fuel cs.length (rest.length + 1) rest true (by omega) (by omega)]

theorem breakScan_esc {cs : List Char}
    (h : matchStyleToken (escChar :: cs) = none) (b : Bool) :
    breakScan (escChar :: cs) b =
      (if b then [] else [CursesComponent.Content ""]) ++ breakScan cs false := by
  unfold breakScan
  simp only [List.length_cons, breakScanF, h]
  simp

theorem breakScan_run {c : Char} {cs : List Char} (hc : c ≠ escChar) (b : Bool) :
    breakScan (c :: cs) b =
      CursesComponent.Content (String.mk ((c :: cs).takeWhile notEsc)) ::
        breakScan ((c :: cs).dropWhile notEsc) true := by
  have h := matchStyleToken_cons_none cs hc
  have hnc : notEsc c = true := by simp [notEsc, hc]
  have hdc : ((c :: cs).dropWhile notEsc).length ≤ cs.length := by
    rw [List.dropWhile_cons, if_pos hnc]
    exact length_dropWhile_le notEsc cs
  unfold breakScan
  calc breakScanF ((c :: cs).length + 1) (c :: cs) b
      = CursesComponent.Content (String.mk ((c :: cs).takeWhile notEsc)) ::
          breakScanF ((c :: cs).length) ((c :: cs).dropWhile notEsc) true := by
        simp only [breakScanF, h, if_neg hc]
    _ = CursesComponent.Content (String.mk ((c :: cs).takeWhile notEsc)) ::
          breakScanF (((c :: cs).dropWhile notEsc).length + 1) ((c :: cs).dropWhile notEsc) true := by
        rw [breakScanF_fuel ((c :: cs).length) (((c :: cs).dropWhile notEsc).length + 1)
          ((c :: cs).dropWhile notEsc) true (by simp only [List.length_cons]; omega)
          (by omega)]

theorem toList_mk (l : List Char) : (String.mk l).toList = l := rfl

theorem contentChars_append (l1 l2 : List CursesComponent) :
    contentChars (l1 ++ l2) = contentChars l1 ++ contentChars l2 := by
  induction l1 with
  | nil => rfl
  | cons comp rest ih =>
    cases comp with
    | Style style => simpa [contentChars] using ih
    | Content s => simp [contentChars, ih]

theorem contentChars_styleComps (tok : List Char) :
    contentChars (styleComps tok) = [] := by
  unfold styleComps
  cases ANSI_TO_NCURSES_MAPPING.lookup (String.mk tok) <;> rfl

theorem filter_takeWhile_self (p : Char → Bool) (l : List Char) :
    (l.takeWhile p).filter p = l.takeWhile p :=
  List.filter_eq_self.mpr (fun _ ha => List.mem_takeWhile_imp ha)

theorem stripAnsiChars_split (cs : List Char) :
    stripAnsiChars cs = cs.takeWhile notEsc ++ stripAnsiChars (cs.dropWhile notEsc) := by
  induction cs with
  | nil => rfl
  | cons c cs' ih =>
    by_cases hc : c = escChar
    · have hnc : notEsc c = false := by simp [notEsc, hc]
      rw [List.takeWhile_cons, List.dropWhile_cons, hnc]
      simp
    · have hnc : notEsc c = true := by simp [notEsc, hc]
      rw [stripAnsiChars_cons_noToken (matchStyleToken_cons_none cs' hc)]
      rw [List.takeWhile_cons, List.dropWhile_cons, hnc]
      simp [ih]

theorem contentChars_breakScan :
    ∀ (n : Nat) (cs : List Char), cs.length ≤ n → ∀ (b : Bool),
      contentChars (breakScan cs b) = (stripAnsiChars cs).filter notEsc := by
  intro n
  induction n with
  | zero =>
    intro cs h b
    have hnil : cs = [] := List.eq_nil_of_length_eq_zero (by omega)
    subst hnil
    cases b <;> rfl
  | succ n' ih =>
    intro cs hle b
    cases hm : matchStyleToken cs with
    | some pr =>
      obtain ⟨tok, rest⟩ := pr
      have hlt := matchStyleToken_rest_length hm
      rw [breakScan_token hm b, stripAnsiChars_token hm, contentChars_append,
        contentChars_styleComps, List.nil_append]
      exact ih rest (by omega) true
    | none =>
      cases cs with
      | nil => cases b <;> rfl
      | cons c cs' =>
        simp only [List.length_cons] at hle
        by_cases hc : c = escChar
        · subst hc
          rw [breakScan_esc hm b, stripAnsiChars_cons_noToken hm, contentChars_append]
          have h1 : contentChars (if b then [] else [CursesComponent.Content ""]) = [] := by
            cases b <;> rfl
          rw [h1, List.nil_append, List.filter_cons]
          have h2 : notEsc escChar = false := by simp [notEsc]
          rw [h2]
          simp only [Bool.false_eq_true, if_false]
          exact ih cs' (by omega) false
        · have hnc : notEsc c = true := by simp [notEsc, hc]
          have hdc : ((c :: cs').dropWhile notEsc).length ≤ cs'.length := by
            rw [List.dropWhile_cons, if_pos hnc]
            exact length_dropWhile_le notEsc cs'
          rw [breakScan_run hc b]
          have h3 : contentChars (CursesComponent.Content (String.mk ((c :: cs').takeWhile notEsc)) ::
              breakScan ((c :: cs').dropWhile notEsc) true) =
              (c :: cs').takeWhile notEsc ++ contentChars (breakScan ((c :: cs').dropWhile notEsc) true) := by
            simp [contentChars, toList_mk]
          rw [h3, stripAnsiChars_split (c :: cs'), List.filter_append,
            filter_takeWhile_self, ih ((c :: cs').dropWhile notEsc) (by omega) true]

theorem breakScan_content_no_esc :
    ∀ (n : Nat) (cs : List Char), cs.length ≤ n → ∀ (b : Bool) (t : String),
      CursesComponent.Content t ∈ breakScan cs b → escChar ∉ t.toList := by
  intro n
  induction n with
  | zero =>
    intro cs h b t hmem
    have hnil : cs = [] := List.eq_nil_of_length_eq_zero (by omega)
    subst hnil
    cases b with
    | true => simp [breakScan_nil] at hmem
    | false =>
      rw [breakScan_nil] at hmem
      simp at hmem
      subst hmem
      decide
  | succ n' ih =>
    intro cs hle b t hmem
    cases hm : matchStyleToken cs with
    | some pr =>
      obtain ⟨tok, rest⟩ := pr
      have hlt := matchStyleToken_rest_length hm
      rw [breakScan_token hm b] at hmem
      rcases List.mem_append.mp hmem with hL | hR
      · rcases hlk : ANSI_TO_NCURSES_MAPPING.lookup (String.mk tok) with _ | style <;>
          simp [styleComps, hlk] at hL
      · exact ih rest (by omega) true t hR
    | none =>
      cases cs with
      | nil =>
        cases b with
        | true => simp [breakScan_nil] at hmem
        | false =>
          rw [breakScan_nil] at hmem
          simp at hmem
          subst hmem
          decide
      | cons c cs' =>
        simp only [List.length_cons] at hle
        by_cases hc : c = escChar
        · subst hc
          rw [breakScan_esc hm b] at hmem
          rcases List.mem_append.mp hmem with hL | hR
          · cases b with
            | true => simp at hL
            | false =>
              simp at hL
              subst hL
              decide
          · exact ih cs' (by omega) false t hR
        · have hnc : notEsc c = true := by simp [notEsc, hc]
          have hdc : ((c :: cs').dropWhile notEsc).length ≤ cs'.length := by
            rw [List.dropWhile_cons, if_pos hnc]
            exact length_dropWhile_le notEsc cs'
          rw [breakScan_run hc b] at hmem
          rcases List.mem_cons.mp hmem with hL | hR
          · have ht : t = String.mk ((c :: cs').takeWhile notEsc) := by
              exact (CursesComponent.Content.injEq .. ▸ hL)
            subst ht
            intro habs
            rw [toList_mk] at habs
            have := List.mem_takeWhile_imp habs
            simp [notEsc] at this
          · exact ih ((c :: cs').dropWhile notEsc) (by omega) true t hR

theorem takeWhile_digits {d : List Char} (hd : ∀ c ∈ d, c.isDigit = true) :
    (d ++ ['m']).takeWhile Char.isDigit = d ∧
      (d ++ ['m']).dropWhile Char.isDigit = ['m'] := by
  induction d with
  | nil => exact ⟨rfl, rfl⟩
  | cons c ds ih =>
    have hc : c.isDigit = true := hd c (List.mem_cons_self c ds)
    have hds : ∀ x ∈ ds, x.isDigit = true := fun x hx => hd x (List.mem_cons_of_mem c hx)
    obtain ⟨ih1, ih2⟩ := ih hds
    constructor
    · rw [List.cons_append, List.takeWhile_cons, hc]
      simp [ih1]
    · rw [List.cons_append, List.dropWhile_cons, hc]
      simp [ih2]

theorem matchStyleToken_wellFormed {d : List Char} (hne : d ≠ [])
    (hd : ∀ c ∈ d, c.isDigit = true) :
    matchStyleToken (escChar :: '[' :: (d ++ ['m'])) =
      some (escChar :: '[' :: (d ++ ['m']), []) := by
  obtain ⟨h1, h2⟩ := takeWhile_digits hd
  have hempty : d.isEmpty = false := by
    cases d with
    | nil => exact absurd rfl hne
    | cons x xs => rfl
  simp only [matchStyleToken, h2, h1, hempty, and_self, if_true, if_pos]
  simp [hempty]

/-- Claim C1, counterexample: on the input consisting of a single ESC byte,
`break_to_ncurses_components` produces no content containing the ESC byte,
while `strip_ansi` keeps it, so the claimed round-trip equality fails. -/
theorem c1_counterexample :
    ¬ concatContents (break_to_ncurses_components "\x1b") = strip_ansi "\x1b" := by
  decide

/-- Claim C1, amended: for every input string, concatenating the text of all
`Content` components of `break_to_ncurses_components s` yields `strip_ansi s`
with every ESC byte removed (the two agree exactly when `strip_ansi s` is
free of ESC bytes). -/
theorem c1_content_round_trip (s : String) :
    concatContents (break_to_ncurses_components s) = removeEsc (strip_ansi s) := by
  unfold concatContents break_to_ncurses_components removeEsc strip_ansi
  rw [toList_mk]
  exact congrArg String.mk
    (contentChars_breakScan s.toList.length s.toList (le_refl _) false)

/-- Claim C5: the scenario input produces exactly the four components
claimed by the specification, and stripping it yields `"Hello World"`. -/
theorem c5_scenario :
    break_to_ncurses_components "\x1b[31mHello\x1b[0m World" =
      [CursesComponent.Style (CursesStyle.Color (some COLOR_RED) none),
       CursesComponent.Content "Hello",
       CursesComponent.Style CursesStyle.Reset,
       CursesComponent.Content " World"] ∧
    strip_ansi "\x1b[31mHello\x1b[0m World" = "Hello World" := by
  decide

/-- Claim C7, counterexample: on the malformed input `ESC 'A'` the ESC byte
of the malformed sequence is present in the input (and kept by
`strip_ansi`), yet it appears in neither `Content` component, so the
malformed bytes do not appear verbatim — the ESC byte is lost. -/
theorem c7_counterexample :
    break_to_ncurses_components "\x1bA" =
      [CursesComponent.Content "", CursesComponent.Content "A"] ∧
    strip_ansi "\x1bA" = "\x1bA" ∧
    escChar ∈ "\x1bA".toList ∧
    escChar ∉ "".toList ∧ escChar ∉ "A".toList := by
  decide

/-- Claim C7, amended: parsing is total and never fails; on any input that
contains no well-formed style token (`strip_ansi` leaves it unchanged), the
components carry every byte verbatim except the ESC bytes themselves, which
are dropped. -/
theorem c7_malformed_kept_except_esc (s : String) (h : strip_ansi s = s) :
    concatContents (break_to_ncurses_components s) = removeEsc s := by
  have hmain : concatContents (break_to_ncurses_components s) = removeEsc (strip_ansi s) := by
    unfold concatContents break_to_ncurses_components removeEsc strip_ansi
    rw [toList_mk]
    exact congrArg String.mk
      (contentChars_breakScan s.toList.length s.toList (le_refl _) false)
  rw [hmain, h]

/-- Witness for C7 at the malformed input `ESC '[' 'x'`. -/
theorem c7_witness :
    strip_ansi "\x1b[x" = "\x1b[x" ∧
    concatContents (break_to_ncurses_components "\x1b[x") = removeEsc "\x1b[x" :=
  ⟨by decide, c7_malformed_kept_except_esc "\x1b[x" (by decide)⟩

/-- Claim C8: a well-formed token `ESC '[' digits 'm'` whose key is not in
`ANSI_TO_NCURSES_MAPPING` produces no component at all — no `Style`, no
`Content` holding its bytes — and `strip_ansi` removes it entirely. -/
theorem c8_unmapped_token_dropped (d : List Char) (h1 : d ≠ [])
    (h2 : ∀ c ∈ d, c.isDigit = true)
    (h3 : ANSI_TO_NCURSES_MAPPING.lookup
      (String.mk (escChar :: '[' :: (d ++ ['m']))) = none) :
    break_to_ncurses_components (String.mk (escChar :: '[' :: (d ++ ['m']))) = [] ∧
    strip_ansi (String.mk (escChar :: '[' :: (d ++ ['m']))) = "" := by
  have hm := matchStyleToken_wellFormed h1 h2
  constructor
  · unfold break_to_ncurses_components
    rw [toList_mk, breakScan_token hm false]
    have hsc : styleComps (escChar :: '[' :: (d ++ ['m'])) = [] := by
      unfold styleComps
      rw [h3]
    rw [hsc, breakScan_nil]
    rfl
  · unfold strip_ansi
    rw [toList_mk, stripAnsiChars_token hm]
    rfl

/-- Witness for C8 at the unmapped bright-color token `ESC '[' "95" 'm'`. -/
theorem c8_witness :
    break_to_ncurses_components (String.mk (escChar :: '[' :: (['9', '5'] ++ ['m']))) = [] ∧
    strip_ansi (String.mk (escChar :: '[' :: (['9', '5'] ++ ['m']))) = "" :=
  c8_unmapped_token_dropped ['9', '5'] (by decide) (by decide) (by decide)

/-- Claim C10: no `Content` component produced by
`break_to_ncurses_components` ever contains the ESC byte, for any input. -/
theorem c10_content_never_esc (s : String) (comp : CursesComponent) (t : String)
    (h1 : comp ∈ break_to_ncurses_components s)
    (h2 : comp = CursesComponent.Content t) : escChar ∉ t.toList := by
  subst h2
  exact breakScan_content_no_esc s.toList.length s.toList (le_refl _) false t h1

/-- Witness for C10 on a malformed input whose content components are
`""` and `"A"`. -/
theorem c10_witness :
    CursesComponent.Content "A" ∈ break_to_ncurses_components "\x1bA" ∧
    escChar ∉ "A".toList :=
  ⟨by decide, c10_content_never_esc "\x1bA" (CursesComponent.Content "A") "A" (by decide) rfl⟩

/-- Claim C2 (code bug): evaluation of `CursesStyle::print` at the failing
input.  Starting from the active state `([A_BOLD], RED, GREEN)`, printing
`Reset` does clear the attribute stack and turns on the default-default
color pair, but it leaves the stored foreground/background at
`(RED, GREEN)` instead of restoring `COLOR_DEFAULT`; a subsequent
background-only `Color` component therefore resolves its foreground side to
the stale `RED`, not to the default as the claim (and the spec) state. -/
theorem c2_reset_leaves_stale_colors :
    (CursesStyle.print CursesStyle.Reset
        { attributes := [CursesAttr.A_BOLD],
          foreground := COLOR_RED, background := COLOR_GREEN }).1.attributes = [] ∧
    (CursesStyle.print CursesStyle.Reset
        { attributes := [CursesAttr.A_BOLD],
          foreground := COLOR_RED, background := COLOR_GREEN }).2 =
      [WindowOp.AttrOff CursesAttr.A_BOLD,
       WindowOp.ColorPairOn (build_color_id COLOR_DEFAULT COLOR_DEFAULT)] ∧
    (CursesStyle.print CursesStyle.Reset
        { attributes := [CursesAttr.A_BOLD],
          foreground := COLOR_RED, background := COLOR_GREEN }).1.foreground = COLOR_RED ∧
    (CursesStyle.print CursesStyle.Reset
        { attributes := [CursesAttr.A_BOLD],
          foreground := COLOR_RED, background := COLOR_GREEN }).1.background = COLOR_GREEN ∧
    COLOR_RED ≠ COLOR_DEFAULT ∧ COLOR_GREEN ≠ COLOR_DEFAULT ∧
    (CursesStyle.print (CursesStyle.Color none (some COLOR_BLUE))
        ((CursesStyle.print CursesStyle.Reset
          { attributes := [CursesAttr.A_BOLD],
            foreground := COLOR_RED, background := COLOR_GREEN }).1)).1.foreground =
      COLOR_RED := by
  decide

/-- Claim C4: `build_color_id` is injective over the square of the 9-color
domain (the 8 named curses colors and `COLOR_DEFAULT`), and
`init_ansi_colors` registers all 81 combinations. -/
theorem c4_color_id_injective_and_complete :
    (∀ f1 ∈ colors, ∀ b1 ∈ colors, ∀ f2 ∈ colors, ∀ b2 ∈ colors,
        build_color_id f1 b1 = build_color_id f2 b2 → f1 = f2 ∧ b1 = b2) ∧
    init_ansi_colors.length = 81 ∧
    (∀ f ∈ colors, ∀ b ∈ colors, (build_color_id f b, f, b) ∈ init_ansi_colors) := by
  decide

/-- Witness for C4, applying the injectivity conjunct at
`(RED, DEFAULT)` versus `(RED, DEFAULT)`. -/
theorem c4_witness : COLOR_RED = COLOR_RED ∧ COLOR_DEFAULT = COLOR_DEFAULT :=
  c4_color_id_injective_and_complete.1 COLOR_RED (by decide) COLOR_DEFAULT (by decide)
    COLOR_RED (by decide) COLOR_DEFAULT (by decide) rfl

/-- Claim C6: printing a `Color` component with only one side specified
resolves the unspecified side from the persistent active state (not the
default), issues the color pair built from the resolved pair, and leaves
both active values equal to the resolved pair. -/
theorem c6_single_sided_color (av : ActiveValues) (c : Int) :
    ((CursesStyle.Color (some c) none).print av).1.foreground = c ∧
    ((CursesStyle.Color (some c) none).print av).1.background = av.background ∧
    ((CursesStyle.Color (some c) none).print av).2 =
      [WindowOp.ColorPairOn (build_color_id c av.background)] ∧
    ((CursesStyle.Color none (some c)).print av).1.foreground = av.foreground ∧
    ((CursesStyle.Color none (some c)).print av).1.background = c ∧
    ((CursesStyle.Color none (some c)).print av).2 =
      [WindowOp.ColorPairOn (build_color_id av.foreground c)] := by
  simp [CursesStyle.print]

/-- Claim C9: `Offset::Top` sets the current buffer's `reverse_index` to
`virtual_height - height`, and a subsequent `Offset::Bottom` resets it to 0.
The two bounds express that the `i32` difference is representable in the
`as usize` cast (in the scenario of the spec it is 80). -/
theorem c9_scroll_top_then_bottom (st : FlowState)
    (h1 : 0 ≤ st.plane.virtual_height - st.plane.height)
    (h2 : st.plane.virtual_height - st.plane.height < 2 ^ 64) :
    ((st.scroll Offset.Top).buffer.reverse_index : Int) =
      st.plane.virtual_height - st.plane.height ∧
    ((st.scroll Offset.Top).scroll Offset.Bottom).buffer.reverse_index = 0 := by
  constructor
  · simp only [FlowState.scroll, usize_of_int]
    rw [Int.emod_eq_of_lt h1 h2]
    exact Int.toNat_of_nonneg h1
  · simp [FlowState.scroll, Buffer.reset_reverse_index]

/-- Witness for C9 at the spec scenario: height 20, virtual height 100. -/
theorem c9_witness :
    (FlowState.scroll ⟨⟨20, 100⟩, ⟨1000, []⟩, ⟨none, 0⟩⟩ Offset.Top).buffer.reverse_index = 80 ∧
    ((FlowState.scroll ⟨⟨20, 100⟩, ⟨1000, []⟩, ⟨none, 0⟩⟩ Offset.Top).scroll
      Offset.Bottom).buffer.reverse_index = 0 := by
  have h := c9_scroll_top_then_bottom ⟨⟨20, 100⟩, ⟨1000, []⟩, ⟨none, 0⟩⟩ (by decide) (by decide)
  refine ⟨?_, h.2⟩
  have h1 := h.1
  norm_num at h1
  omega

/-- Claim C3: ingesting a batch while the active buffer is scrolled
(`reverse_index ≠ 0`) increases `reverse_index` by exactly the number of
newly matching lines under the active filter (the change in virtual
height), not by the number of raw lines appended; when the buffer is not
scrolled, `reverse_index` stays 0.  The hypotheses state that the plane's
virtual height is in sync with the filtered view and that the documented
scroll invariant `reverse_index ≤ virtual_height - height` holds. -/
theorem c3_append_preserves_scroll (st : FlowState) (pending : List String)
    (hsync : st.plane.virtual_height = ((st.buffer.parse st.lines.entries).length : Int))
    (hinv : (st.buffer.reverse_index : Int) ≤ st.plane.virtual_height - st.plane.height) :
    (st.append_incoming_lines pending).buffer.reverse_index =
      if st.buffer.reverse_index = 0 then 0
      else st.buffer.reverse_index + (st.buffer.parse pending).length := by
  have hpa : (st.buffer.parse (st.lines.entries ++ pending)).length
      = (st.buffer.parse st.lines.entries).length + (st.buffer.parse pending).length := by
    unfold Buffer.parse
    rw [List.filter_append, List.length_append]
  by_cases h0 : st.buffer.reverse_index = 0
  · unfold FlowState.append_incoming_lines FlowState.reset_view FlowState.scroll
      LineCollection.extend LineCollection.clear_excess Buffer.is_scrolled
    simp [h0]
  · unfold FlowState.append_incoming_lines FlowState.reset_view FlowState.scroll
      LineCollection.extend LineCollection.clear_excess Buffer.is_scrolled
      Buffer.adjust_reverse_index
    simp only [bne_iff_ne, ne_eq, h0, not_false_iff, if_true, if_neg h0]
    rw [hpa]
    rw [hsync] at hinv ⊢
    have hmin : min ((st.buffer.reverse_index : Int) +
        (((st.buffer.parse st.lines.entries).length + (st.buffer.parse pending).length : Nat) -
          ((st.buffer.parse st.lines.entries).length : Nat)))
        ((((st.buffer.parse st.lines.entries).length + (st.buffer.parse pending).length : Nat) : Int) -
          st.plane.height) = (st.buffer.reverse_index : Int) + (st.buffer.parse pending).length := by
      push_cast
      omega
    rw [hmin]
    have hnn : (0 : Int) ≤ (st.buffer.reverse_index : Int) + (st.buffer.parse pending).length := by
      positivity
    rw [max_eq_right hnn]
    simp only [if_false]
    omega

/-- Witness for C3 at the spec scenario: `reverse_index = 5`, filter
pattern `"E"`, four raw lines ingested of which exactly three match;
the result is 8, not 5 + 4 and not 0. -/
theorem c3_witness :
    (FlowState.append_incoming_lines
      ⟨⟨0, 5⟩, ⟨100, ["E", "E", "E", "E", "E"]⟩, ⟨some "E", 5⟩⟩
      ["E", "E", "E", "zz"]).buffer.reverse_index = 8 := by
  have h := c3_append_preserves_scroll
    ⟨⟨0, 5⟩, ⟨100, ["E", "E", "E", "E", "E"]⟩, ⟨some "E", 5⟩⟩
    ["E", "E", "E", "zz"] (by decide) (by decide)
  rw [h]
  decide
